import Mathlib

/-!
Verification of the shellrunner core (command assembly, stream demultiplexing,
status aggregation), shallowly embedded from `src/shellrunner/_shellrunner.py`.

The child shell's merged stdout/stderr stream is modelled as a `List Char`
(one entry per code point, exactly as the Python loop reads one character at a
time via `stdout.read(1)`).  Python exceptions raised by the modelled code
paths (`IndexError` from `split(" : ")[1]`, `ValueError` from `int(x)`) are
modelled with `Except`.
-/

set_option maxHeartbeats 1000000

namespace ShellRunner

/-- `'⽌'` (U+2F4C), the OPEN sentinel marker printed by the status reporter. -/
def markerOpen : Char := '⽌'

/-- `'⾏'` (U+2F8F), the CLOSE sentinel marker printed by the status reporter. -/
def markerClose : Char := '⾏'

/-- Whitespace characters recognised by Python's `str.split()` / `str.strip()`
(ASCII subset; the streams at issue only ever contain `' '`). -/
def pyIsSpaceCh (c : Char) : Bool :=
  c = ' ' ∨ c = '\t' ∨ c = '\n' ∨ c = Char.ofNat 11 ∨ c = Char.ofNat 12 ∨ c = '\r'

/-- Prepend a character onto the first chunk of a chunk list
(helper for `pySplitSep`). -/
def consHead (c : Char) : List (List Char) → List (List Char)
  | [] => [[c]]
  | t :: ts => (c :: t) :: ts

/-- Python `s.split(" : ")`: scan left to right for non-overlapping occurrences
of the three-character separator `" : "` and cut at each one.
`pySplitSep [] = [[]]`, matching Python's `"".split(" : ") == [""]`. -/
def pySplitSep : List Char → List (List Char)
  | [] => [[]]
  | c :: cs =>
    if c = ' ' ∧ cs.take 2 = [':', ' '] then [] :: pySplitSep (cs.drop 2)
    else consHead c (pySplitSep cs)
  termination_by s => s.length
  decreasing_by
    · simp only [List.length_drop, List.length_cons]; omega
    · simp only [List.length_cons]; omega

/-- Python `s.split()` (no argument): split on runs of whitespace, discarding
empty chunks.  `pySplitWs [] = []`, matching Python's `"".split() == []`. -/
def pySplitWs : List Char → List (List Char)
  | [] => []
  | c :: cs =>
    if pyIsSpaceCh c then pySplitWs cs
    else (c :: cs.takeWhile (fun x => !pyIsSpaceCh x))
         :: pySplitWs (cs.dropWhile (fun x => !pyIsSpaceCh x))
  termination_by s => s.length
  decreasing_by
    · simp only [List.length_cons]; omega
    · have h : (cs.dropWhile (fun x => !pyIsSpaceCh x)).length ≤ cs.length :=
        (List.dropWhile_sublist _).length_le
      simp only [List.length_cons]; omega

/-- Python `s.strip()`: drop leading and trailing whitespace. -/
def pyStrip (s : List Char) : List Char :=
  ((s.dropWhile pyIsSpaceCh).reverse.dropWhile pyIsSpaceCh).reverse

/-- Python `s.rstrip()`: drop trailing whitespace. -/
def pyRstrip (s : List Char) : List Char :=
  (s.reverse.dropWhile pyIsSpaceCh).reverse

/-- Numeric value of a decimal digit character. -/
def digitVal (c : Char) : Nat := c.toNat - 48

/-- Accumulating decimal parse of a digit string; `none` on a non-digit. -/
def parseDigitsAux (acc : Nat) : List Char → Option Nat
  | [] => some acc
  | c :: cs => if c.isDigit then parseDigitsAux (acc * 10 + digitVal c) cs else none

/-- Parse a non-empty all-digit string; `none` otherwise. -/
def parseDigits (ds : List Char) : Option Nat :=
  if ds = [] then none else parseDigitsAux 0 ds

/-- Python `int(s)`: strip whitespace, optional single sign, then a non-empty
run of decimal digits; `none` models `ValueError`. -/
def pyInt (s : List Char) : Option Int :=
  let t := pyStrip s
  if t.head? = some '-' then (parseDigits t.tail).map (fun n => -(n : Int))
  else if t.head? = some '+' then (parseDigits t.tail).map (fun n => (n : Int))
  else (parseDigits t).map (fun n => (n : Int))

/-- Python `[int(x) for x in chunks]`; `none` models a `ValueError` from any
element. -/
def parseIntList : List (List Char) → Option (List Int)
  | [] => some []
  | x :: xs =>
    match pyInt x, parseIntList xs with
    | some v, some vs => some (v :: vs)
    | _, _ => none

/-- The decimal digit character for `d < 10` (`'0'` as a fallback). -/
def decDigit (d : Nat) : Char :=
  if d = 0 then '0' else if d = 1 then '1' else if d = 2 then '2'
  else if d = 3 then '3' else if d = 4 then '4' else if d = 5 then '5'
  else if d = 6 then '6' else if d = 7 then '7' else if d = 8 then '8'
  else if d = 9 then '9' else '0'

/-- Modelled from the spec: the decimal text of one non-negative exit status as
the shell expands it inside the pipestatus expression (the Python source only
ever receives this text as `sys.argv[1]`; its generation lives in the shell,
outside `src/`). -/
def natToDec (n : Nat) : List Char :=
  if _h : n < 10 then [decDigit n]
  else natToDec (n / 10) ++ [decDigit (n % 10)]
  termination_by n
  decreasing_by exact Nat.div_lt_self (by omega) (by omega)

/-- Modelled from the spec: space-separated decimal rendering of an exit-status
sequence, i.e. the shell's expansion of the pipestatus expression
(`"0 1 0"`-style text). -/
def fmtNats : List Nat → List Char
  | [] => []
  | [n] => natToDec n
  | n :: rest => natToDec n ++ ' ' :: fmtNats rest

/-- Python `repr` of an `int` (used in the f-string error message). -/
def intRepr (i : Int) : List Char :=
  if i < 0 then '-' :: natToDec i.natAbs else natToDec i.toNat

/-- Python `repr` of a `list[int]`, e.g. `"[0, 1]"` (used in the f-string
error message of `ShellCommandError`). -/
def pyIntListRepr (l : List Int) : List Char :=
  '[' :: (List.intercalate [',', ' '] (l.map intRepr)) ++ [']']

/-- Python exceptions that the modelled code paths can raise. -/
inductive PyErr where
  | indexError
  | valueError
deriving DecidableEq, Repr

/-- The mutable state of the `while` loop in `_run_commands`. -/
structure DemuxState where
  output : List Char
  pipestatus : List Char
  pipestatus_list : List Int
  capture_output : Bool
deriving DecidableEq, Repr

/-- One iteration of the `while (out := process.stdout.read(1)) ...` loop in
`_run_commands`, for one code point `out` read from the merged stream.
Printing (`show_output`) and flushing are side effects with no influence on
the returned data and are not modelled. -/
def demuxStep (st : DemuxState) (out : Char) : Except PyErr DemuxState :=
  -- if out.startswith("⽌"): capture_output = False
  let capture_output := if out = markerOpen then false else st.capture_output
  -- if capture_output and out: output += out  else: pipestatus += out
  let st :=
    if capture_output then
      { st with capture_output, output := st.output ++ [out] }
    else
      { st with capture_output, pipestatus := st.pipestatus ++ [out] }
  -- if out.startswith("⾏"): ...
  if out = markerClose then
    if st.pipestatus ≠ [] then
      -- pipestatus = pipestatus.split(" : ")[1]
      match (pySplitSep st.pipestatus).get? 1 with
      | none => .error .indexError
      | some mid =>
        -- pipestatus_list = [int(x) for x in pipestatus.split()]
        match parseIntList (pySplitWs mid) with
        | none => .error .valueError
        | some l =>
          .ok { st with pipestatus := mid, pipestatus_list := l, capture_output := true }
    else .ok { st with capture_output := true }
  else .ok st

/-- Run the `_run_commands` loop over a whole merged stream. -/
def demuxLoop : List Char → DemuxState → Except PyErr DemuxState
  | [], st => .ok st
  | c :: rest, st =>
    match demuxStep st c with
    | .error e => .error e
    | .ok st' => demuxLoop rest st'

/-- `_run_commands(commands, options)`, with the child process's merged
stdout/stderr stream as the input: returns `(output, pipestatus_list)`. -/
def run_commands (stream : List Char) : Except PyErr (List Char × List Int) :=
  match demuxLoop stream ⟨[], [], [], true⟩ with
  | .error e => .error e
  | .ok st => .ok (st.output, st.pipestatus_list)

/-- `ShellCommandResult` from `_exceptions.py`. -/
structure ShellCommandResult where
  out : List Char
  status : Int
  pipestatus : List Int
deriving DecidableEq, Repr

/-- The errors `run` can surface: an uncaught Python exception from the loop,
`ShellRunnerError`, or `ShellCommandError` carrying the result. -/
inductive RunErr where
  | pyErr (e : PyErr)
  | shellRunnerError (message : List Char)
  | shellCommandError (message : List Char) (result : ShellCommandResult)
deriving DecidableEq, Repr

/-- Message of the `ShellRunnerError` raised when no exit status was captured. -/
def failedCaptureMessage : List Char :=
  "Something went wrong. Failed to capture an exit status.".data

/-- Message of `ShellCommandError`:
`f"Command exited with non-zero status: \x7bpipestatus_list\x7d"`. -/
def nonZeroStatusMessage (pipestatus_list : List Int) : List Char :=
  "Command exited with non-zero status: ".data ++ pyIntListRepr pipestatus_list

/-- Lines 65–70 of `run`: `status = pipestatus_list[-1]`, then the first
non-zero value of `reversed(pipestatus_list)` if any. -/
def statusFromPipestatus (pipestatus_list : List Int) : Int :=
  let status := pipestatus_list.getLastD 0
  match pipestatus_list.reverse.find? (fun s => decide (s ≠ 0)) with
  | some s => s
  | none => status

/-- `run` from `_shellrunner.py`, lines 58–80: everything after the child
process is spawned.  The merged output stream of the child is the `stream`
argument; option resolution, script assembly and the spawn itself are the
excluded collaborators that produce it. -/
def run (stream : List Char) (check : Bool) : Except RunErr ShellCommandResult :=
  match run_commands stream with
  | .error e => .error (.pyErr e)
  | .ok (output, pipestatus_list) =>
    -- if not pipestatus_list: raise ShellRunnerError(message)
    if pipestatus_list = [] then .error (.shellRunnerError failedCaptureMessage)
    else
      let status := statusFromPipestatus pipestatus_list
      let result : ShellCommandResult := ⟨pyRstrip output, status, pipestatus_list⟩
      -- if check: for status in pipestatus_list: if status != 0: raise ShellCommandError
      if check then
        match pipestatus_list.find? (fun s => decide (s ≠ 0)) with
        | some _ => .error (.shellCommandError (nonZeroStatusMessage pipestatus_list) result)
        | none => .ok result
      else .ok result

/-! ## Command assembly (`_build_commands`) -/

/-- The `status_check` Python snippet after `cleandoc`, exactly as embedded in
the assembled script. -/
def status_check : String :=
  "import sys\npipestatus = sys.argv[1]\nprint(\x27\\u2f4c\x27 + f\x27 : \x7bpipestatus\x7d : \x27 + \x27\\u2f8f\x27, end=\x27\x27)\nfor status in [int(x) for x in pipestatus.split()]:\n    if status != 0: sys.exit(status)"

/-- Lines 153–160 of `_build_commands`: select `(status_var, pipestatus_var)`
from the shell executable's base name. -/
def shell_status_vars (shell_name : String) : String × String :=
  let status_var := "$?"
  let pipestatus_var := status_var
  let pipestatus_var := if shell_name = "bash" then "$\x7bPIPESTATUS[*]\x7d" else pipestatus_var
  if shell_name = "zsh" ∨ shell_name = "fish" then ("$status", "$pipestatus")
  else (status_var, pipestatus_var)

/-- Lines 162–170: the command appended after each user command
(`sys.executable` is passed in as `pyexe`). -/
def status_command (shell_name : String) (check : Bool) (pyexe : String) : String :=
  let (status_var, pipestatus_var) := shell_status_vars shell_name
  let exit_command := if check then " || exit \"" ++ status_var ++ "\"" else ""
  pyexe ++ " -c \"" ++ status_check ++ "\" \"" ++ pipestatus_var ++ "\"" ++ exit_command

/-- Python `list.insert(i, x)` (for the in-range indices used here). -/
def pyListInsert (l : List α) (i : Nat) (x : α) : List α :=
  l.take i ++ x :: l.drop i

/-- `_build_commands(command_list, options)`: interleave `status_command`
after every command via `commands.insert(i, status_command)` for
`i in range(1, len(command_list) * 2, 2)`, then join with `"; "`. -/
def build_commands (command_list : List String) (shell_name : String) (check : Bool)
    (pyexe : String) : String :=
  let sc := status_command shell_name check pyexe
  let commands :=
    (List.range command_list.length).foldl (fun acc k => pyListInsert acc (2 * k + 1) sc)
      command_list
  String.intercalate "; " commands

/-! ## The demultiplexer as the specification words it -/

/-- State of the specification's two-state demultiplexer:
`capturingStatus = false` is `CAPTURING_OUTPUT`, `true` is `CAPTURING_STATUS`. -/
structure SpecDemuxState where
  visible : List Char
  pending : List Char
  payloads : List (List Char)
  capturingStatus : Bool
deriving DecidableEq, Repr

/-- One transition of the demultiplexer exactly as the specification describes
it: in `CAPTURING_OUTPUT` every code point is appended to the visible output,
except `OPEN` which switches state and is appended to neither buffer; in
`CAPTURING_STATUS` code points are appended to the pending payload buffer,
except `CLOSE`, which flushes the pending buffer as a completed payload,
clears it, and switches back without being retained. -/
def demuxSpecStep (st : SpecDemuxState) (c : Char) : SpecDemuxState :=
  if st.capturingStatus then
    if c = markerClose then
      { st with payloads := st.payloads ++ [st.pending], pending := [], capturingStatus := false }
    else { st with pending := st.pending ++ [c] }
  else
    if c = markerOpen then { st with capturingStatus := true }
    else { st with visible := st.visible ++ [c] }

/-- The specification's `demux`: fold the two-state machine over the merged
stream, returning the visible output and the completed payloads. -/
def demuxSpec (stream : List Char) : List Char × List (List Char) :=
  let st := stream.foldl demuxSpecStep ⟨[], [], [], false⟩
  (st.visible, st.payloads)

/-! ## Well-formed merged streams

A stream produced by an actual execution consists of command output
interleaved with the payload blocks printed by the status reporter:
`OPEN + " : " + nums + " : " + CLOSE`. -/

/-- The text the status reporter prints between the markers for a given
status sequence (`" : " + rawArgument + " : "`). -/
def payloadInner (nums : List Nat) : List Char :=
  ' ' :: ':' :: ' ' :: fmtNats nums ++ [' ', ':', ' ']

/-- The full marker-delimited block printed by the status reporter. -/
def payloadBlock (nums : List Nat) : List Char :=
  markerOpen :: payloadInner nums ++ [markerClose]

/-- A string of code points containing neither sentinel marker. -/
def markerFree (s : List Char) : Prop :=
  markerOpen ∉ s ∧ markerClose ∉ s

instance (s : List Char) : Decidable (markerFree s) := by
  unfold markerFree; infer_instance

/-- A well-formed merged stream: for each command, its visible output followed
by the status reporter's payload block, then any trailing output. -/
def wfStream (segs : List (List Char × List Nat)) (final : List Char) : List Char :=
  (segs.map fun p => p.1 ++ payloadBlock p.2).flatten ++ final

/-! ## Decimal round-trip lemmas -/

lemma decDigit_props (d : Nat) (h : d < 10) :
    (decDigit d).isDigit = true ∧ pyIsSpaceCh (decDigit d) = false ∧
    decDigit d ≠ ':' ∧ decDigit d ≠ markerOpen ∧ decDigit d ≠ markerClose ∧
    decDigit d ≠ '-' ∧ decDigit d ≠ '+' := by
  interval_cases d <;> exact ⟨by decide, by decide, by decide, by decide, by decide, by decide,
    by decide⟩

lemma digitVal_decDigit (d : Nat) (h : d < 10) : digitVal (decDigit d) = d := by
  interval_cases d <;> decide

lemma natToDec_ne_nil (n : Nat) : natToDec n ≠ [] := by
  unfold natToDec
  split
  · simp
  · simp

lemma natToDec_mem (n : Nat) : ∀ c ∈ natToDec n, ∃ d, d < 10 ∧ c = decDigit d := by
  induction n using natToDec.induct with
  | case1 n h =>
    rw [natToDec, dif_pos h]
    intro c hc
    simp only [List.mem_singleton] at hc
    exact ⟨n, h, hc⟩
  | case2 n h ih =>
    rw [natToDec, dif_neg h]
    intro c hc
    rcases List.mem_append.1 hc with h1 | h1
    · exact ih c h1
    · simp only [List.mem_singleton] at h1
      exact ⟨n % 10, Nat.mod_lt _ (by omega), h1⟩

lemma parseDigitsAux_append (xs ys : List Char) (acc m : Nat)
    (h : parseDigitsAux acc xs = some m) :
    parseDigitsAux acc (xs ++ ys) = parseDigitsAux m ys := by
  induction xs generalizing acc with
  | nil => simp only [parseDigitsAux] at h; cases h; simp [parseDigitsAux]
  | cons c cs ih =>
    simp only [parseDigitsAux] at h ⊢
    by_cases hd : c.isDigit
    · rw [if_pos hd] at h ⊢
      exact ih _ h
    · rw [if_neg hd] at h
      cases h

lemma parseDigitsAux_natToDec (n : Nat) :
    ∀ acc, parseDigitsAux acc (natToDec n) = some (acc * 10 ^ (natToDec n).length + n) := by
  induction n using natToDec.induct with
  | case1 n h =>
    intro acc
    rw [natToDec, dif_pos h]
    simp [parseDigitsAux, (decDigit_props n h).1, digitVal_decDigit n h]
  | case2 n h ih =>
    intro acc
    rw [natToDec, dif_neg h]
    rw [parseDigitsAux_append _ _ _ _ (ih acc)]
    have h10 : n % 10 < 10 := Nat.mod_lt _ (by omega)
    simp only [parseDigitsAux, (decDigit_props _ h10).1, if_pos, digitVal_decDigit _ h10,
      List.length_append, List.length_singleton]
    congr 1
    have hp : 10 ^ ((natToDec (n / 10)).length + 1) = 10 ^ (natToDec (n / 10)).length * 10 :=
      pow_succ 10 _
    rw [hp]
    have hdm : n / 10 * 10 + n % 10 = n := by omega
    ring_nf
    omega

lemma parseDigits_natToDec (n : Nat) : parseDigits (natToDec n) = some n := by
  rw [parseDigits, if_neg (natToDec_ne_nil n), parseDigitsAux_natToDec n 0]
  simp

lemma dropWhile_eq_self_of_all {p : Char → Bool} {l : List Char}
    (h : ∀ c ∈ l, p c = false) : l.dropWhile p = l := by
  cases l with
  | nil => rfl
  | cons c cs => rw [List.dropWhile_cons, h c (by simp)]; simp

lemma pyStrip_of_no_space {l : List Char} (h : ∀ c ∈ l, pyIsSpaceCh c = false) :
    pyStrip l = l := by
  unfold pyStrip
  rw [dropWhile_eq_self_of_all h,
    dropWhile_eq_self_of_all (fun c hc => h c (List.mem_reverse.1 hc)), List.reverse_reverse]

lemma natToDec_no_space (n : Nat) : ∀ c ∈ natToDec n, pyIsSpaceCh c = false := by
  intro c hc
  obtain ⟨d, hd, rfl⟩ := natToDec_mem n c hc
  exact (decDigit_props d hd).2.1

lemma pyInt_natToDec (n : Nat) : pyInt (natToDec n) = some (n : Int) := by
  unfold pyInt
  rw [pyStrip_of_no_space (natToDec_no_space n)]
  obtain ⟨c, cs, hcons⟩ := List.exists_cons_of_ne_nil (natToDec_ne_nil n)
  have hc : c ∈ natToDec n := by rw [hcons]; simp
  obtain ⟨d, hd, rfl⟩ := natToDec_mem n c hc
  rw [hcons]
  simp only [List.head?_cons]
  rw [if_neg (by simpa using (decDigit_props d hd).2.2.2.2.2.1),
    if_neg (by simpa using (decDigit_props d hd).2.2.2.2.2.2)]
  rw [← hcons, parseDigits_natToDec n]
  rfl

/-! ## Splitting lemmas -/

lemma takeWhile_append_of_all {p : Char → Bool} {l1 l2 : List Char}
    (h : ∀ c ∈ l1, p c = true) : (l1 ++ l2).takeWhile p = l1 ++ l2.takeWhile p := by
  induction l1 with
  | nil => simp
  | cons c cs ih =>
    simp only [List.cons_append, List.takeWhile_cons, h c (by simp)]
    rw [ih (fun x hx => h x (by simp [hx]))]
    simp

lemma dropWhile_append_of_all {p : Char → Bool} {l1 l2 : List Char}
    (h : ∀ c ∈ l1, p c = true) : (l1 ++ l2).dropWhile p = l2.dropWhile p := by
  induction l1 with
  | nil => simp
  | cons c cs ih =>
    simp only [List.cons_append, List.dropWhile_cons, h c (by simp)]
    exact ih (fun x hx => h x (by simp [hx]))

lemma takeWhile_eq_self_of_all {p : Char → Bool} {l : List Char}
    (h : ∀ c ∈ l, p c = true) : l.takeWhile p = l := by
  have h2 : (l ++ ([] : List Char)).takeWhile p = l ++ ([] : List Char).takeWhile p :=
    takeWhile_append_of_all h
  simpa using h2

lemma fmtNats_cons (n : Nat) (x : List Nat) (hx : x ≠ []) :
    fmtNats (n :: x) = natToDec n ++ ' ' :: fmtNats x := by
  cases x with
  | nil => exact absurd rfl hx
  | cons y ys => rfl

lemma fmtNats_mem (l : List Nat) :
    ∀ c ∈ fmtNats l, (∃ d, d < 10 ∧ c = decDigit d) ∨ c = ' ' := by
  induction l using fmtNats.induct with
  | case1 => simp [fmtNats]
  | case2 n =>
    rw [show fmtNats [n] = natToDec n from rfl]
    intro c hc
    exact Or.inl (natToDec_mem n c hc)
  | case3 n x hx ih =>
    rw [fmtNats_cons n x (fun h => hx h)]
    intro c hc
    rcases List.mem_append.1 hc with h1 | h1
    · exact Or.inl (natToDec_mem n c h1)
    · rcases List.mem_cons.1 h1 with h2 | h2
      · exact Or.inr h2
      · exact ih c h2

lemma fmtNats_no_colon (l : List Nat) : ':' ∉ fmtNats l := by
  intro hc
  rcases fmtNats_mem l ':' hc with ⟨d, hd, h⟩ | h
  · exact (decDigit_props d hd).2.2.1 h.symm
  · cases h

lemma fmtNats_no_markers (l : List Nat) :
    markerOpen ∉ fmtNats l ∧ markerClose ∉ fmtNats l := by
  constructor <;> intro hc
  · rcases fmtNats_mem l _ hc with ⟨d, hd, h⟩ | h
    · exact (decDigit_props d hd).2.2.2.1 h.symm
    · cases h
  · rcases fmtNats_mem l _ hc with ⟨d, hd, h⟩ | h
    · exact (decDigit_props d hd).2.2.2.2.1 h.symm
    · cases h

lemma dropWhile_eq_nil_of_all {p : Char → Bool} {l : List Char}
    (h : ∀ c ∈ l, p c = true) : l.dropWhile p = [] := by
  have h2 : (l ++ ([] : List Char)).dropWhile p = ([] : List Char).dropWhile p :=
    dropWhile_append_of_all h
  simpa using h2

lemma pySplitWs_natToDec_append (n : Nat) (r : List Char) :
    pySplitWs (natToDec n ++ r) =
      (natToDec n ++ r.takeWhile (fun x => !pyIsSpaceCh x))
        :: pySplitWs (r.dropWhile (fun x => !pyIsSpaceCh x)) := by
  obtain ⟨c, cs, hcons⟩ := List.exists_cons_of_ne_nil (natToDec_ne_nil n)
  have hall : ∀ x ∈ natToDec n, (fun y => !pyIsSpaceCh y) x = true := by
    intro x hx; simp [natToDec_no_space n x hx]
  have hc : pyIsSpaceCh c = false := natToDec_no_space n c (by rw [hcons]; simp)
  have hcs : ∀ x ∈ cs, (fun y => !pyIsSpaceCh y) x = true := by
    intro x hx; exact hall x (by rw [hcons]; simp [hx])
  rw [hcons, List.cons_append, pySplitWs, if_neg (by simp [hc]),
    takeWhile_append_of_all hcs, dropWhile_append_of_all hcs]
  simp

lemma pySplitWs_fmtNats (l : List Nat) : pySplitWs (fmtNats l) = l.map natToDec := by
  induction l using fmtNats.induct with
  | case1 => simp [fmtNats, pySplitWs]
  | case2 n =>
    rw [show fmtNats [n] = natToDec n from rfl]
    have h := pySplitWs_natToDec_append n []
    rw [List.append_nil] at h
    rw [h]
    simp [pySplitWs]
  | case3 n x hx ih =>
    rw [fmtNats_cons n x (fun h => hx h), pySplitWs_natToDec_append]
    rw [List.takeWhile_cons, if_neg (by decide), List.dropWhile_cons, if_neg (by decide)]
    rw [show pySplitWs (' ' :: fmtNats x) = pySplitWs (fmtNats x) by
      rw [pySplitWs, if_pos (by decide)]]
    rw [ih]
    simp

lemma parseIntList_map_natToDec (l : List Nat) :
    parseIntList (l.map natToDec) = some (l.map Int.ofNat) := by
  induction l with
  | nil => rfl
  | cons n rest ih =>
    rw [List.map_cons, parseIntList, pyInt_natToDec, ih, List.map_cons]
    rfl

/-- The aggregator's parse round-trips the status reporter's formatting. -/
lemma parse_fmtNats (l : List Nat) :
    parseIntList (pySplitWs (fmtNats l)) = some (l.map Int.ofNat) := by
  rw [pySplitWs_fmtNats, parseIntList_map_natToDec]

/-- Splitting on `" : "` cuts exactly at an inserted separator when the text
before it contains no colon (so no earlier occurrence can start). -/
lemma pySplitSep_append (a b : List Char) (h : ':' ∉ a) :
    pySplitSep (a ++ ' ' :: ':' :: ' ' :: b) = a :: pySplitSep b := by
  induction a with
  | nil =>
    rw [List.nil_append, pySplitSep, if_pos (by simp)]
    simp
  | cons c a' ih =>
    have hcol : ':' ∉ a' := fun hm => h (by simp [hm])
    rw [List.cons_append, pySplitSep, if_neg ?_, ih hcol]
    · rfl
    · rintro ⟨hc, htake⟩
      cases a' with
      | nil => simp at htake
      | cons d a'' =>
        have hd : d = ':' := by
          simpa using congrArg (fun l => l.head?) htake
        exact h (by simp [hd])

/-- The buffer that `_run_commands` splits at a CLOSE marker: any residue free
of colons, then the OPEN marker, the reporter's inner text, and the CLOSE
marker.  The `[1]` element is exactly the formatted status text. -/
lemma pySplitSep_payload (residue : List Char) (nums : List Nat) (h : ':' ∉ residue) :
    pySplitSep (residue ++ markerOpen :: payloadInner nums ++ [markerClose]) =
      [residue ++ [markerOpen], fmtNats nums, [markerClose]] := by
  have h1 : ':' ∉ residue ++ [markerOpen] := by
    intro hm
    rcases List.mem_append.1 hm with hm | hm
    · exact h hm
    · rw [List.mem_singleton] at hm
      exact absurd hm (by decide)
  have h2 : ':' ∉ fmtNats nums := fmtNats_no_colon nums
  have hshape : residue ++ markerOpen :: payloadInner nums ++ [markerClose] =
      (residue ++ [markerOpen]) ++ ' ' :: ':' :: ' ' ::
        (fmtNats nums ++ ' ' :: ':' :: ' ' :: [markerClose]) := by
    simp [payloadInner]
  rw [hshape, pySplitSep_append _ _ h1, pySplitSep_append _ _ h2]
  rw [show pySplitSep [markerClose] = [[markerClose]] by
    rw [pySplitSep, if_neg (by decide), pySplitSep]; rfl]

/-! ## Behaviour of the `_run_commands` loop -/

lemma demuxStep_output (st : DemuxState) (c : Char) (hcap : st.capture_output = true)
    (ho : c ≠ markerOpen) (hc : c ≠ markerClose) :
    demuxStep st c = .ok { st with output := st.output ++ [c] } := by
  rcases st with ⟨o, p, l, cap⟩
  simp only at hcap
  subst hcap
  simp [demuxStep, ho, hc]

lemma demuxStep_open (st : DemuxState) :
    demuxStep st markerOpen =
      .ok { st with capture_output := false, pipestatus := st.pipestatus ++ [markerOpen] } := by
  rcases st with ⟨o, p, l, cap⟩
  simp [demuxStep, show markerOpen ≠ markerClose by decide]

lemma demuxStep_status (st : DemuxState) (c : Char) (hcap : st.capture_output = false)
    (hc : c ≠ markerClose) :
    demuxStep st c = .ok { st with pipestatus := st.pipestatus ++ [c] } := by
  rcases st with ⟨o, p, l, cap⟩
  simp only at hcap
  subst hcap
  by_cases ho : c = markerOpen
  · subst ho
    simp [demuxStep, show ¬(markerOpen = markerClose) from by decide]
  · simp [demuxStep, ho, hc]

lemma demuxStep_close_general (st : DemuxState) (hcap : st.capture_output = false)
    (mid : List Char) (l' : List Int)
    (hmid : (pySplitSep (st.pipestatus ++ [markerClose]))[1]? = some mid)
    (hparse : parseIntList (pySplitWs mid) = some l') :
    demuxStep st markerClose =
      .ok { st with capture_output := true, pipestatus := mid, pipestatus_list := l' } := by
  rcases st with ⟨o, p, l, cap⟩
  simp only at hcap hmid
  subst hcap
  have hne : p ++ [markerClose] ≠ [] := by simp
  simp [demuxStep, show ¬(markerClose = markerOpen) from by decide, hne, hmid, hparse]

lemma demuxStep_close (st : DemuxState) (hcap : st.capture_output = false)
    (residue : List Char) (nums : List Nat)
    (hps : st.pipestatus = residue ++ markerOpen :: payloadInner nums)
    (hres : ':' ∉ residue) :
    demuxStep st markerClose =
      .ok { st with
            capture_output := true, pipestatus := fmtNats nums,
            pipestatus_list := nums.map Int.ofNat } := by
  apply demuxStep_close_general st hcap (fmtNats nums) (nums.map Int.ofNat) ?_ (parse_fmtNats nums)
  rw [hps, pySplitSep_payload residue nums hres]
  rfl

lemma demuxLoop_append (l1 l2 : List Char) (st : DemuxState) :
    demuxLoop (l1 ++ l2) st =
      match demuxLoop l1 st with
      | .error e => .error e
      | .ok st' => demuxLoop l2 st' := by
  induction l1 generalizing st with
  | nil => simp [demuxLoop]
  | cons c cs ih =>
    rw [List.cons_append, demuxLoop, demuxLoop]
    cases demuxStep st c with
    | error e => rfl
    | ok st' => exact ih st'

lemma demuxLoop_cons_ok {st st' : DemuxState} {c : Char} (cs : List Char)
    (h : demuxStep st c = .ok st') : demuxLoop (c :: cs) st = demuxLoop cs st' := by
  rw [demuxLoop, h]

lemma demuxLoop_append_ok {st st' : DemuxState} {l1 : List Char} (l2 : List Char)
    (h : demuxLoop l1 st = .ok st') : demuxLoop (l1 ++ l2) st = demuxLoop l2 st' := by
  rw [demuxLoop_append, h]

lemma demuxLoop_outputSeg (seg : List Char) (st : DemuxState)
    (hcap : st.capture_output = true) (hm : markerFree seg) :
    demuxLoop seg st = .ok { st with output := st.output ++ seg } := by
  induction seg generalizing st with
  | nil =>
    rcases st with ⟨o, p, l, cap⟩
    simp [demuxLoop]
  | cons c cs ih =>
    obtain ⟨hmo, hmc⟩ := hm
    rw [List.mem_cons, not_or] at hmo hmc
    rw [demuxLoop_cons_ok cs (demuxStep_output st c hcap (Ne.symm hmo.1) (Ne.symm hmc.1))]
    have h2 := ih { st with output := st.output ++ [c] } hcap ⟨hmo.2, hmc.2⟩
    exact h2.trans (by simp)

lemma demuxLoop_statusSeg (mids : List Char) (st : DemuxState)
    (hcap : st.capture_output = false) (hc : markerClose ∉ mids) :
    demuxLoop mids st = .ok { st with pipestatus := st.pipestatus ++ mids } := by
  induction mids generalizing st with
  | nil =>
    rcases st with ⟨o, p, l, cap⟩
    simp [demuxLoop]
  | cons c cs ih =>
    rw [List.mem_cons, not_or] at hc
    rw [demuxLoop_cons_ok cs (demuxStep_status st c hcap (Ne.symm hc.1))]
    have h2 := ih { st with pipestatus := st.pipestatus ++ [c] } hcap hc.2
    exact h2.trans (by simp)

lemma payloadInner_no_close (nums : List Nat) : markerClose ∉ payloadInner nums := by
  intro hm
  rw [payloadInner] at hm
  rcases List.mem_cons.1 hm with h | h
  · exact absurd h (by decide)
  rcases List.mem_cons.1 h with h | h
  · exact absurd h (by decide)
  rcases List.mem_cons.1 h with h | h
  · exact absurd h (by decide)
  rcases List.mem_append.1 h with h | h
  · exact (fmtNats_no_markers nums).2 h
  · simp at h
    rcases h with h | h | h <;> exact absurd h (by decide)

lemma demuxLoop_block (nums : List Nat) (st : DemuxState)
    (_hcap : st.capture_output = true) (hres : ':' ∉ st.pipestatus) :
    demuxLoop (payloadBlock nums) st =
      .ok { st with
            capture_output := true, pipestatus := fmtNats nums,
            pipestatus_list := nums.map Int.ofNat } := by
  rw [show payloadBlock nums = markerOpen :: (payloadInner nums ++ [markerClose]) by
    simp [payloadBlock]]
  rw [demuxLoop_cons_ok (payloadInner nums ++ [markerClose]) (demuxStep_open st)]
  rw [demuxLoop_append_ok [markerClose]
    (demuxLoop_statusSeg (payloadInner nums) _ rfl (payloadInner_no_close nums))]
  rw [demuxLoop_cons_ok []
    (demuxStep_close _ rfl st.pipestatus nums (by simp) hres)]
  rw [demuxLoop]

/-- Main characterization of the `_run_commands` loop on a well-formed stream:
all visible segments land in `output`, the buffer holds the residue of the
last payload, and `pipestatus_list` holds the integers of the last payload
(or the initial value when there is none). -/
lemma demuxLoop_wf (segs : List (List Char × List Nat)) (st : DemuxState)
    (hcap : st.capture_output = true) (hres : ':' ∉ st.pipestatus)
    (hm : ∀ p ∈ segs, markerFree p.1) :
    demuxLoop ((segs.map fun p => p.1 ++ payloadBlock p.2).flatten) st =
      .ok { st with
            output := st.output ++ (segs.map Prod.fst).flatten,
            pipestatus := (segs.map fun p => fmtNats p.2).getLastD st.pipestatus,
            pipestatus_list :=
              (segs.map fun p => p.2.map Int.ofNat).getLastD st.pipestatus_list,
            capture_output := true } := by
  induction segs generalizing st with
  | nil =>
    rcases st with ⟨o, p, l, cap⟩
    simp only at hcap
    subst hcap
    simp [demuxLoop]
  | cons sp rest ih =>
    obtain ⟨seg, nums⟩ := sp
    have h1 := demuxLoop_outputSeg seg st hcap (hm (seg, nums) (by simp))
    have h2 := demuxLoop_block nums { st with output := st.output ++ seg } hcap hres
    have h12 : demuxLoop (seg ++ payloadBlock nums) st =
        .ok { st with
              output := st.output ++ seg, pipestatus := fmtNats nums,
              pipestatus_list := nums.map Int.ofNat, capture_output := true } := by
      rw [demuxLoop_append_ok _ h1]
      exact h2
    rw [List.map_cons, List.flatten_cons, demuxLoop_append_ok _ h12]
    rw [ih _ rfl (fmtNats_no_colon nums) (fun q hq => hm q (by simp [hq]))]
    simp only [List.map_cons, List.flatten_cons, List.getLastD_cons, List.append_assoc]

/-- `_run_commands` on a full well-formed stream. -/
lemma run_commands_wf (segs : List (List Char × List Nat)) (final : List Char)
    (hm : ∀ p ∈ segs, markerFree p.1) (hf : markerFree final) :
    run_commands (wfStream segs final) =
      .ok ((segs.map Prod.fst).flatten ++ final,
           (segs.map fun p => p.2.map Int.ofNat).getLastD []) := by
  have h1 := demuxLoop_wf segs ⟨[], [], [], true⟩ rfl (by simp) hm
  have h2 := demuxLoop_outputSeg final
    { output := ([] : List Char) ++ (segs.map Prod.fst).flatten,
      pipestatus := (segs.map fun p => fmtNats p.2).getLastD [],
      pipestatus_list := (segs.map fun p => p.2.map Int.ofNat).getLastD [],
      capture_output := true } rfl hf
  have h12 : demuxLoop (wfStream segs final) ⟨[], [], [], true⟩ =
      .ok { output := ((segs.map Prod.fst).flatten : List Char) ++ final,
            pipestatus := (segs.map fun p => fmtNats p.2).getLastD [],
            pipestatus_list := (segs.map fun p => p.2.map Int.ofNat).getLastD [],
            capture_output := true } := by
    rw [wfStream, demuxLoop_append_ok _ h1]
    exact (h2.trans (by simp))
  rw [run_commands, h12]

/-! ## Behaviour of the specification's two-state machine -/

lemma demuxSpecStep_out (st : SpecDemuxState) (c : Char) (h : st.capturingStatus = false)
    (ho : c ≠ markerOpen) :
    demuxSpecStep st c = { st with visible := st.visible ++ [c] } := by
  rcases st with ⟨v, pe, pl, cap⟩
  simp only at h
  subst h
  simp [demuxSpecStep, ho]

lemma demuxSpecStep_open (st : SpecDemuxState) (h : st.capturingStatus = false) :
    demuxSpecStep st markerOpen = { st with capturingStatus := true } := by
  rcases st with ⟨v, pe, pl, cap⟩
  simp only at h
  subst h
  simp [demuxSpecStep]

lemma demuxSpecStep_pending (st : SpecDemuxState) (c : Char) (h : st.capturingStatus = true)
    (hc : c ≠ markerClose) :
    demuxSpecStep st c = { st with pending := st.pending ++ [c] } := by
  rcases st with ⟨v, pe, pl, cap⟩
  simp only at h
  subst h
  simp [demuxSpecStep, hc]

lemma demuxSpecStep_close (st : SpecDemuxState) (h : st.capturingStatus = true) :
    demuxSpecStep st markerClose =
      { st with
        payloads := st.payloads ++ [st.pending], pending := [], capturingStatus := false } := by
  rcases st with ⟨v, pe, pl, cap⟩
  simp only at h
  subst h
  simp [demuxSpecStep]

lemma specFold_out (seg : List Char) (st : SpecDemuxState)
    (h : st.capturingStatus = false) (hm : markerFree seg) :
    seg.foldl demuxSpecStep st = { st with visible := st.visible ++ seg } := by
  induction seg generalizing st with
  | nil =>
    rcases st with ⟨v, pe, pl, cap⟩
    simp
  | cons c cs ih =>
    obtain ⟨hmo, hmc⟩ := hm
    rw [List.mem_cons, not_or] at hmo hmc
    rw [List.foldl_cons, demuxSpecStep_out st c h (Ne.symm hmo.1)]
    have h2 := ih { st with visible := st.visible ++ [c] } h ⟨hmo.2, hmc.2⟩
    exact h2.trans (by simp)

lemma specFold_pending (mids : List Char) (st : SpecDemuxState)
    (h : st.capturingStatus = true) (hc : markerClose ∉ mids) :
    mids.foldl demuxSpecStep st = { st with pending := st.pending ++ mids } := by
  induction mids generalizing st with
  | nil =>
    rcases st with ⟨v, pe, pl, cap⟩
    simp
  | cons c cs ih =>
    rw [List.mem_cons, not_or] at hc
    rw [List.foldl_cons, demuxSpecStep_pending st c h (Ne.symm hc.1)]
    have h2 := ih { st with pending := st.pending ++ [c] } h hc.2
    exact h2.trans (by simp)

lemma specFold_block (nums : List Nat) (st : SpecDemuxState)
    (h : st.capturingStatus = false) (hp : st.pending = []) :
    (payloadBlock nums).foldl demuxSpecStep st =
      { st with
        payloads := st.payloads ++ [payloadInner nums], pending := [],
        capturingStatus := false } := by
  rw [show payloadBlock nums = markerOpen :: (payloadInner nums ++ [markerClose]) by
    simp [payloadBlock]]
  rw [List.foldl_cons, demuxSpecStep_open st h, List.foldl_append]
  rw [specFold_pending (payloadInner nums) _ rfl (payloadInner_no_close nums)]
  rw [List.foldl_cons, List.foldl_nil,
    demuxSpecStep_close _ rfl]
  simp [hp]

lemma specFold_wf (segs : List (List Char × List Nat)) (st : SpecDemuxState)
    (h : st.capturingStatus = false) (hp : st.pending = [])
    (hm : ∀ p ∈ segs, markerFree p.1) :
    ((segs.map fun p => p.1 ++ payloadBlock p.2).flatten).foldl demuxSpecStep st =
      { st with
        visible := st.visible ++ (segs.map Prod.fst).flatten,
        payloads := st.payloads ++ segs.map fun p => payloadInner p.2,
        pending := [], capturingStatus := false } := by
  induction segs generalizing st with
  | nil =>
    rcases st with ⟨v, pe, pl, cap⟩
    simp only at h hp
    subst h; subst hp
    simp
  | cons sp rest ih =>
    obtain ⟨seg, nums⟩ := sp
    rw [List.map_cons, List.flatten_cons, List.foldl_append, List.foldl_append]
    dsimp only
    rw [specFold_out seg st h (hm (seg, nums) (by simp))]
    rw [specFold_block nums { st with visible := st.visible ++ seg } h hp]
    rw [ih _ rfl rfl (fun q hq => hm q (by simp [hq]))]
    simp only [List.map_cons, List.flatten_cons, List.append_assoc, List.singleton_append]

/-- The specification's demultiplexer on a full well-formed stream. -/
lemma demuxSpec_wf (segs : List (List Char × List Nat)) (final : List Char)
    (hm : ∀ p ∈ segs, markerFree p.1) (hf : markerFree final) :
    demuxSpec (wfStream segs final) =
      ((segs.map Prod.fst).flatten ++ final, segs.map fun p => payloadInner p.2) := by
  rw [demuxSpec, wfStream, List.foldl_append]
  rw [specFold_wf segs ⟨[], [], [], false⟩ rfl rfl hm]
  rw [specFold_out final _ rfl hf]
  simp

/-! ## The status aggregation policy -/

lemma statusFromPipestatus_pos (l : List Int) (h : ∃ v ∈ l, v ≠ 0) :
    ∃ l1 l2, l = l1 ++ statusFromPipestatus l :: l2 ∧ statusFromPipestatus l ≠ 0 ∧
      ∀ x ∈ l2, x = 0 := by
  have hsome : (l.reverse.find? (fun s => decide (s ≠ 0))).isSome := by
    rw [List.find?_isSome]
    obtain ⟨v, hv, hnz⟩ := h
    exact ⟨v, List.mem_reverse.2 hv, by simpa using hnz⟩
  obtain ⟨s, hs⟩ := Option.isSome_iff_exists.1 hsome
  obtain ⟨hps, as, bs, hsplit, hall⟩ := List.find?_eq_some.1 hs
  have hl : l = bs.reverse ++ s :: as.reverse := by
    have h2 := congrArg List.reverse hsplit
    rw [List.reverse_reverse] at h2
    rw [h2]
    simp
  have hval : statusFromPipestatus l = s := by
    unfold statusFromPipestatus
    rw [hs]
  refine ⟨bs.reverse, as.reverse, ?_, ?_, ?_⟩
  · rw [hval]; exact hl
  · rw [hval]; simpa using hps
  · intro x hx
    have h3 := hall x (List.mem_reverse.1 hx)
    simpa using h3

lemma statusFromPipestatus_all_zero (l : List Int) (hne : l ≠ [])
    (hz : ∀ v ∈ l, v = 0) : l.getLast? = some (statusFromPipestatus l) := by
  have hnone : l.reverse.find? (fun s => decide (s ≠ 0)) = none := by
    rw [List.find?_eq_none]
    intro x hx
    simp [hz x (List.mem_reverse.1 hx)]
  unfold statusFromPipestatus
  rw [hnone]
  rw [List.getLastD_eq_getLast?]
  cases hq : l.getLast? with
  | none => exact absurd (by simpa using hq) hne
  | some a => simp

lemma statusFromPipestatus_mem (l : List Int) (hne : l ≠ []) :
    statusFromPipestatus l ∈ l := by
  by_cases h : ∃ v ∈ l, v ≠ 0
  · obtain ⟨l1, l2, heq, _, _⟩ := statusFromPipestatus_pos l h
    have h2 : statusFromPipestatus l ∈ l1 ++ statusFromPipestatus l :: l2 := by simp
    rwa [← heq] at h2
  · push_neg at h
    have h2 := statusFromPipestatus_all_zero l hne h
    have h3 := List.getLast?_eq_getLast l hne
    have h4 : l.getLast hne = statusFromPipestatus l :=
      Option.some.inj (h3.symm.trans h2)
    rw [← h4]
    exact List.getLast_mem hne

/-! ## Behaviour of `run` -/

lemma run_ok_cases (stream : List Char) (out : List Char) (lst : List Int)
    (hrc : run_commands stream = .ok (out, lst)) (hne : lst ≠ []) :
    run stream false = .ok ⟨pyRstrip out, statusFromPipestatus lst, lst⟩ ∧
    ((∃ v ∈ lst, v ≠ 0) →
      run stream true = .error (.shellCommandError (nonZeroStatusMessage lst)
        ⟨pyRstrip out, statusFromPipestatus lst, lst⟩)) ∧
    ((∀ v ∈ lst, v = 0) →
      run stream true = .ok ⟨pyRstrip out, statusFromPipestatus lst, lst⟩) := by
  refine ⟨?_, ?_, ?_⟩
  · simp only [run, hrc]
    rw [if_neg hne]
    simp
  · intro hex
    have hsome : (lst.find? (fun s => decide (s ≠ 0))).isSome := by
      rw [List.find?_isSome]
      obtain ⟨v, hv, hnz⟩ := hex
      exact ⟨v, hv, by simpa using hnz⟩
    obtain ⟨s, hs⟩ := Option.isSome_iff_exists.1 hsome
    simp only [run, hrc]
    rw [if_neg hne]
    simp only [if_pos rfl, hs]
    simp
  · intro hz
    have hnone : lst.find? (fun s => decide (s ≠ 0)) = none := by
      rw [List.find?_eq_none]
      intro x hx
      simp [hz x hx]
    simp only [run, hrc]
    rw [if_neg hne]
    simp only [if_pos rfl, hnone]
    simp

lemma run_result_inv (stream : List Char) (check : Bool) (r : ShellCommandResult)
    (h : run stream check = .ok r ∨ ∃ m, run stream check = .error (.shellCommandError m r)) :
    ∃ out lst, run_commands stream = .ok (out, lst) ∧ lst ≠ [] ∧
      r = ⟨pyRstrip out, statusFromPipestatus lst, lst⟩ := by
  cases hrc : run_commands stream with
  | error e =>
    rcases h with h | ⟨m, h⟩ <;> simp only [run, hrc] at h <;> exact absurd h (by simp)
  | ok pr =>
    obtain ⟨out, lst⟩ := pr
    by_cases hne : lst = []
    · subst hne
      rcases h with h | ⟨m, h⟩ <;> simp only [run, hrc] at h <;> simp at h
    · refine ⟨out, lst, rfl, hne, ?_⟩
      rcases h with h | ⟨m, h⟩ <;> simp only [run, hrc] at h <;> rw [if_neg hne] at h
      · cases check with
        | false =>
          rw [if_neg (show ¬((false : Bool) = true) by decide)] at h
          exact (Except.ok.inj h).symm
        | true =>
          rw [if_pos rfl] at h
          cases hfind : lst.find? (fun s => decide (s ≠ 0)) with
          | some s => rw [hfind] at h; exact absurd h (by simp)
          | none => rw [hfind] at h; exact (Except.ok.inj h).symm
      · cases check with
        | false =>
          rw [if_neg (show ¬((false : Bool) = true) by decide)] at h
          exact absurd h (by simp)
        | true =>
          rw [if_pos rfl] at h
          cases hfind : lst.find? (fun s => decide (s ≠ 0)) with
          | some s =>
            rw [hfind] at h
            have h2 := RunErr.shellCommandError.inj (Except.error.inj h)
            exact h2.2.symm
          | none => rw [hfind] at h; exact absurd h (by simp)

/-! ## Behaviour of the command assembler -/

lemma flatMap_pair_length (cl : List String) (sc : String) :
    (cl.flatMap fun c => [c, sc]).length = 2 * cl.length := by
  induction cl with
  | nil => simp
  | cons c cs ih => simp [ih]; omega

/-- The `commands.insert(i, status_command)` loop interleaves the status
command right after every user command. -/
lemma insert_loop_interleaves (cl : List String) (sc : String) :
    (List.range cl.length).foldl (fun acc k => pyListInsert acc (2 * k + 1) sc) cl =
      cl.flatMap fun c => [c, sc] := by
  have key : ∀ k, k ≤ cl.length →
      (List.range k).foldl (fun acc j => pyListInsert acc (2 * j + 1) sc) cl =
        ((cl.take k).flatMap fun c => [c, sc]) ++ cl.drop k := by
    intro k
    induction k with
    | zero => simp
    | succ k ih =>
      intro hk
      have hklt : k < cl.length := by omega
      rw [List.range_succ, List.foldl_append, ih (by omega), List.foldl_cons, List.foldl_nil]
      have hlen : ((cl.take k).flatMap fun c => [c, sc]).length = 2 * k := by
        rw [flatMap_pair_length, List.length_take]
        omega
      rw [List.drop_eq_getElem_cons hklt]
      rw [pyListInsert, show 2 * k + 1 = ((cl.take k).flatMap fun c => [c, sc]).length + 1 by
        omega]
      rw [List.take_append, List.drop_append]
      rw [show List.take 1 (cl[k] :: List.drop (k + 1) cl) = [cl[k]] from rfl,
        show List.drop 1 (cl[k] :: List.drop (k + 1) cl) = List.drop (k + 1) cl from rfl]
      rw [List.take_succ, List.getElem?_eq_getElem hklt]
      simp only [List.flatMap_append, List.flatMap_cons, List.flatMap_nil, Option.toList_some,
        List.append_nil, List.append_assoc, List.cons_append, List.nil_append]
  have h := key cl.length (le_refl _)
  simpa using h

/-! ## Claim theorems -/

/-- The aggregator's parse step applied to one complete marker-delimited status
payload: `pipestatus.split(" : ")[1]` then `[int(x) for x in pipestatus.split()]`,
exactly the two parsing lines of `_run_commands` at a CLOSE marker. -/
def parseStatusPayload (p : List Char) : Option (List Int) :=
  match (pySplitSep p).get? 1 with
  | none => none
  | some mid => parseIntList (pySplitWs mid)

/-- C7: for every sequence of non-negative integers `S`, formatting `S` as a
status payload (the text `" : "` + space-separated integers + `" : "` between
the OPEN and CLOSE markers, as printed by the status reporter) and then
parsing that payload with the aggregator's parse step yields back exactly the
sequence `S`. -/
theorem c7_payload_round_trip (S : List Nat) :
    parseStatusPayload (payloadBlock S) = some (S.map Int.ofNat) := by
  have hsplit : pySplitSep (payloadBlock S) = [[markerOpen], fmtNats S, [markerClose]] := by
    have h := pySplitSep_payload [] S (by simp)
    simpa [payloadBlock] using h
  unfold parseStatusPayload
  rw [hsplit]
  rw [show ([[markerOpen], fmtNats S, [markerClose]] : List (List Char)).get? 1 =
        some (fmtNats S) from rfl]
  exact parse_fmtNats S

/-- C8: the dialect lookup gives bash `("$?", "$\x7bPIPESTATUS[*]\x7d")`, zsh and
fish `("$status", "$pipestatus")`, and every other shell base name (including
`"sh"`) the POSIX default `("$?", "$?")`, with no error path. -/
theorem c8_dialect_table :
    shell_status_vars "bash" = ("$?", "$\x7bPIPESTATUS[*]\x7d") ∧
    shell_status_vars "zsh" = ("$status", "$pipestatus") ∧
    shell_status_vars "fish" = ("$status", "$pipestatus") ∧
    ∀ name : String, name ≠ "bash" → name ≠ "zsh" → name ≠ "fish" →
      shell_status_vars name = ("$?", "$?") := by
  refine ⟨by decide, by decide, by decide, ?_⟩
  intro name h1 h2 h3
  simp [shell_status_vars, h1, h2, h3]

theorem c8_dialect_table_witness : shell_status_vars "sh" = ("$?", "$?") :=
  c8_dialect_table.2.2.2 "sh" (by decide) (by decide) (by decide)

/-- C6: for every non-empty command list, dialect and check flag the assembled
script is the user commands interleaved with exactly one status-report
invocation after each command, joined with `"; "`; the invocation passes the
dialect's pipestatus expression as its single (quoted) argument and carries
`|| exit "<lastStatusExpr>"` exactly when check is enabled. -/
theorem c6_assembled_script (command_list : List String) (shell_name : String)
    (check : Bool) (pyexe : String) (_hne : command_list ≠ []) :
    build_commands command_list shell_name check pyexe =
      String.intercalate "; " (command_list.flatMap fun c =>
        [c, status_command shell_name check pyexe]) ∧
    status_command shell_name check pyexe =
      pyexe ++ " -c \"" ++ status_check ++ "\" \"" ++ (shell_status_vars shell_name).2 ++
        "\"" ++
        (if check then " || exit \"" ++ (shell_status_vars shell_name).1 ++ "\"" else "") ∧
    (command_list.flatMap fun c => [c, status_command shell_name check pyexe]).length =
      2 * command_list.length := by
  refine ⟨?_, ?_, ?_⟩
  · simp only [build_commands]
    rw [insert_loop_interleaves]
  · rcases hsv : shell_status_vars shell_name with ⟨a, b⟩
    simp only [status_command, hsv]
  · exact flatMap_pair_length command_list _

theorem c6_assembled_script_witness :
    (["echo hello"] : List String) ≠ [] ∧
    (build_commands ["echo hello"] "bash" true "python3" =
      String.intercalate "; " ((["echo hello"] : List String).flatMap fun c =>
        [c, status_command "bash" true "python3"]) ∧
    status_command "bash" true "python3" =
      "python3" ++ " -c \"" ++ status_check ++ "\" \"" ++ (shell_status_vars "bash").2 ++
        "\"" ++
        (if true then " || exit \"" ++ (shell_status_vars "bash").1 ++ "\"" else "") ∧
    ((["echo hello"] : List String).flatMap fun c =>
      [c, status_command "bash" true "python3"]).length = 2 * (["echo hello"]).length) :=
  ⟨by decide, c6_assembled_script ["echo hello"] "bash" true "python3" (by decide)⟩

lemma run_no_payload (stream : List Char) (check : Bool) (out : List Char)
    (h : run_commands stream = .ok (out, [])) :
    run stream check = .error (.shellRunnerError failedCaptureMessage) := by
  simp only [run, h]
  rw [if_pos trivial]

/-- C5: whenever the demultiplexer captures no status payload before the
stream is exhausted (`pipestatus_list` stays empty), `run` raises
`ShellRunnerError`, for either value of the check flag. -/
theorem c5_no_payload_raises (stream : List Char) (check : Bool) (out : List Char)
    (h : run_commands stream = .ok (out, [])) :
    run stream check = .error (.shellRunnerError failedCaptureMessage) :=
  run_no_payload stream check out h

theorem c5_no_payload_raises_witness :
    run_commands ['a'] = .ok (['a'], []) ∧
    run ['a'] true = .error (.shellRunnerError failedCaptureMessage) ∧
    run ['a'] false = .error (.shellRunnerError failedCaptureMessage) :=
  ⟨rfl, c5_no_payload_raises ['a'] true ['a'] rfl, c5_no_payload_raises ['a'] false ['a'] rfl⟩

/-- C3 counterexample: on the empty command list the code does not fail with
any invalid-argument error before assembly or execution — there is no such
error in the code at all.  Assembly succeeds and returns the empty script, the
script is executed, and afterwards (no payload having been captured) the call
fails with `ShellRunnerError`. -/
theorem c3_counterexample :
    build_commands [] "bash" true "python3" = "" ∧
    run [] true = .error (.shellRunnerError failedCaptureMessage) ∧
    run [] false = .error (.shellRunnerError failedCaptureMessage) := by
  refine ⟨?_, rfl, rfl⟩
  simp only [build_commands]
  rfl

/-- C3 amended: the empty command list is not rejected; `_build_commands`
returns the empty script for it, the script is executed, and since the status
reporter never runs (the stream contains no markers) the call raises
`ShellRunnerError` after execution, for either value of the check flag. -/
theorem c3_empty_command_list (shell_name : String) (check : Bool) (pyexe : String)
    (stream : List Char) (hm : markerFree stream) :
    build_commands [] shell_name check pyexe = "" ∧
    run stream check = .error (.shellRunnerError failedCaptureMessage) := by
  constructor
  · simp only [build_commands]
    rfl
  · have h1 := demuxLoop_outputSeg stream ⟨[], [], [], true⟩ rfl hm
    have h2 : run_commands stream = .ok (stream, []) := by
      simp only [run_commands, h1]
      simp
    exact run_no_payload stream check stream h2

theorem c3_empty_command_list_witness :
    markerFree [] ∧
    (build_commands [] "bash" true "python3" = "" ∧
     run [] true = .error (.shellRunnerError failedCaptureMessage)) :=
  ⟨by decide, c3_empty_command_list "bash" true "python3" [] (by decide)⟩

/-- C2: with the final pipestatus non-empty, `run` with check enabled raises
`ShellCommandError` exactly when some value in the pipestatus is non-zero, and
the raised error carries the full result (rstripped output, computed status,
full pipestatus); with check disabled the same result is returned instead. -/
theorem c2_check_policy (stream : List Char) (out : List Char) (lst : List Int)
    (hrc : run_commands stream = .ok (out, lst)) (hne : lst ≠ []) :
    ((∃ v ∈ lst, v ≠ 0) →
      run stream true = .error (.shellCommandError (nonZeroStatusMessage lst)
        ⟨pyRstrip out, statusFromPipestatus lst, lst⟩)) ∧
    ((∀ v ∈ lst, v = 0) →
      run stream true = .ok ⟨pyRstrip out, statusFromPipestatus lst, lst⟩) ∧
    run stream false = .ok ⟨pyRstrip out, statusFromPipestatus lst, lst⟩ := by
  obtain ⟨h1, h2, h3⟩ := run_ok_cases stream out lst hrc hne
  exact ⟨h2, h3, h1⟩

theorem c2_check_policy_witness :
    run_commands [markerOpen, ' ', ':', ' ', '0', ' ', '1', ' ', ':', ' ', markerClose] =
      .ok ([], [0, 1]) ∧
    (([0, 1] : List Int) ≠ []) ∧ (∃ v ∈ ([0, 1] : List Int), v ≠ 0) ∧
    run [markerOpen, ' ', ':', ' ', '0', ' ', '1', ' ', ':', ' ', markerClose] true =
      .error (.shellCommandError (nonZeroStatusMessage [0, 1])
        ⟨pyRstrip [], statusFromPipestatus [0, 1], [0, 1]⟩) ∧
    run [markerOpen, ' ', ':', ' ', '0', ' ', '1', ' ', ':', ' ', markerClose] false =
      .ok ⟨pyRstrip [], statusFromPipestatus [0, 1], [0, 1]⟩ := by
  have hrc : run_commands [markerOpen, ' ', ':', ' ', '0', ' ', '1', ' ', ':', ' ',
      markerClose] = .ok ([], [0, 1]) := by
    simp [run_commands, demuxLoop, demuxStep, pySplitSep, pySplitWs, pyInt, pyStrip,
      parseDigits, parseDigitsAux, parseIntList, consHead, pyIsSpaceCh, digitVal,
      markerOpen, markerClose]
  refine ⟨hrc, by decide, by decide, ?_, ?_⟩
  · exact (c2_check_policy _ _ _ hrc (by decide)).1 (by decide)
  · exact (c2_check_policy _ _ _ hrc (by decide)).2.2

/-- C9: a stream that ends while the loop is capturing a status payload (an
OPEN marker with no matching CLOSE before exhaustion) yields exactly the
output and parsed statuses of the stream without that trailing portion: the
partial payload text appears neither in the visible output nor as a parsed
payload. -/
theorem c9_trailing_partial_discarded (s rest : List Char) (out : List Char)
    (lst : List Int) (hs : run_commands s = .ok (out, lst))
    (hc : markerClose ∉ rest) :
    run_commands (s ++ markerOpen :: rest) = .ok (out, lst) := by
  unfold run_commands at hs ⊢
  cases hloop : demuxLoop s ⟨[], [], [], true⟩ with
  | error e => rw [hloop] at hs; cases hs
  | ok st =>
    rw [hloop] at hs
    rw [demuxLoop_append_ok (markerOpen :: rest) hloop]
    rw [demuxLoop_cons_ok rest (demuxStep_open st)]
    rw [demuxLoop_statusSeg rest _ rfl hc]
    rw [← hs]

theorem c9_trailing_partial_discarded_witness :
    run_commands ['x', markerOpen, ' ', ':', ' ', '7', ' ', ':', ' ', markerClose] =
      .ok (['x'], [7]) ∧
    markerClose ∉ (['a', 'b'] : List Char) ∧
    run_commands (['x', markerOpen, ' ', ':', ' ', '7', ' ', ':', ' ', markerClose] ++
        markerOpen :: ['a', 'b']) = .ok (['x'], [7]) := by
  have hs : run_commands ['x', markerOpen, ' ', ':', ' ', '7', ' ', ':', ' ',
      markerClose] = .ok (['x'], [7]) := by
    simp [run_commands, demuxLoop, demuxStep, pySplitSep, pySplitWs, pyInt, pyStrip,
      parseDigits, parseDigitsAux, parseIntList, consHead, pyIsSpaceCh, digitVal,
      markerOpen, markerClose]
  exact ⟨hs, by decide, c9_trailing_partial_discarded _ _ _ _ hs (by decide)⟩

/-- C10: every result `run` produces — returned on success or attached to a
raised `ShellCommandError` — has its `status` as an element of its
`pipestatus`: a non-zero element when one exists, otherwise the last
element. -/
theorem c10_status_element (stream : List Char) (check : Bool) (r : ShellCommandResult)
    (h : run stream check = .ok r ∨
      ∃ m, run stream check = .error (.shellCommandError m r)) :
    r.status ∈ r.pipestatus ∧
    ((∃ v ∈ r.pipestatus, v ≠ 0) → r.status ≠ 0) ∧
    ((∀ v ∈ r.pipestatus, v = 0) → r.pipestatus.getLast? = some r.status) := by
  obtain ⟨out, lst, hrc, hne, rfl⟩ := run_result_inv stream check r h
  refine ⟨statusFromPipestatus_mem lst hne, ?_, ?_⟩
  · intro hex
    obtain ⟨l1, l2, _, hnz, _⟩ := statusFromPipestatus_pos lst hex
    exact hnz
  · intro hz
    exact statusFromPipestatus_all_zero lst hne hz

theorem c10_status_element_witness :
    run [markerOpen, ' ', ':', ' ', '0', ' ', '5', ' ', ':', ' ', markerClose] false =
      .ok ⟨[], 5, [0, 5]⟩ ∧
    ((5 : Int) ∈ ([0, 5] : List Int) ∧
     ((∃ v ∈ ([0, 5] : List Int), v ≠ 0) → (5 : Int) ≠ 0) ∧
     ((∀ v ∈ ([0, 5] : List Int), v = 0) →
       ([0, 5] : List Int).getLast? = some 5)) := by
  have hr : run [markerOpen, ' ', ':', ' ', '0', ' ', '5', ' ', ':', ' ', markerClose]
      false = .ok ⟨[], 5, [0, 5]⟩ := by
    simp [run, run_commands, demuxLoop, demuxStep, pySplitSep, pySplitWs, pyInt, pyStrip,
      parseDigits, parseDigitsAux, parseIntList, consHead, pyIsSpaceCh, digitVal,
      markerOpen, markerClose, statusFromPipestatus, pyRstrip, List.find?]
  exact ⟨hr, c10_status_element _ false ⟨[], 5, [0, 5]⟩ (Or.inl hr)⟩

lemma getLastD_map_ofNat (segs : List (List Char × List Nat)) :
    (segs.map fun p => p.2.map Int.ofNat).getLastD [] =
      ((segs.map fun p => p.2).getLastD []).map Int.ofNat := by
  rw [List.getLastD_eq_getLast?, List.getLastD_eq_getLast?]
  rw [show (fun (p : List Char × List Nat) => p.2.map Int.ofNat) =
        (List.map Int.ofNat) ∘ (fun p => p.2) from rfl]
  rw [← List.map_map, List.getLast?_map]
  cases ((segs.map fun p => p.2).getLast?) with
  | none => rfl
  | some x => rfl

/-- C1: for every execution whose stream carries a non-empty sequence of
status payloads (each with at least one integer in the last one), the produced
result — returned, or carried by the raised `ShellCommandError` — has
`pipestatus` equal to the integer sequence of the **last** payload only, and
`status` equal to the last non-zero value of that pipestatus scanning from the
end, or its final element if every value is zero. -/
theorem c1_last_payload_aggregation (segs : List (List Char × List Nat))
    (final : List Char) (check : Bool) (_hsegs : segs ≠ [])
    (hm : ∀ p ∈ segs, markerFree p.1) (hf : markerFree final)
    (hlast : (segs.map fun p => p.2).getLastD [] ≠ []) :
    ∃ r : ShellCommandResult,
      (run (wfStream segs final) check = .ok r ∨
        run (wfStream segs final) check =
          .error (.shellCommandError (nonZeroStatusMessage r.pipestatus) r)) ∧
      r.pipestatus = ((segs.map fun p => p.2).getLastD []).map Int.ofNat ∧
      ((∀ v ∈ r.pipestatus, v = 0) → r.pipestatus.getLast? = some r.status) ∧
      ((∃ v ∈ r.pipestatus, v ≠ 0) →
        ∃ l1 l2, r.pipestatus = l1 ++ r.status :: l2 ∧ r.status ≠ 0 ∧
          ∀ x ∈ l2, x = 0) := by
  have hrc := run_commands_wf segs final hm hf
  rw [getLastD_map_ofNat] at hrc
  have hne : ((segs.map fun p => p.2).getLastD []).map Int.ofNat ≠ [] := by
    simpa using hlast
  obtain ⟨h1, h2, h3⟩ := run_ok_cases _ _ _ hrc hne
  refine ⟨⟨pyRstrip ((segs.map Prod.fst).flatten ++ final),
    statusFromPipestatus (((segs.map fun p => p.2).getLastD []).map Int.ofNat),
    ((segs.map fun p => p.2).getLastD []).map Int.ofNat⟩, ?_, rfl, ?_, ?_⟩
  · by_cases hex : ∃ v ∈ ((segs.map fun p => p.2).getLastD []).map Int.ofNat, v ≠ 0
    · cases check with
      | false => exact Or.inl h1
      | true => exact Or.inr (h2 hex)
    · push_neg at hex
      cases check with
      | false => exact Or.inl h1
      | true => exact Or.inl (h3 hex)
  · intro hz
    exact statusFromPipestatus_all_zero _ hne hz
  · intro hex
    exact statusFromPipestatus_pos _ hex

theorem c1_last_payload_aggregation_witness :
    (([(['h', 'i'], [3]), ([], [0, 2])] : List (List Char × List Nat)) ≠ [] ∧
     (∀ p ∈ ([(['h', 'i'], [3]), ([], [0, 2])] : List (List Char × List Nat)),
       markerFree p.1) ∧
     markerFree ['!'] ∧
     (([(['h', 'i'], [3]), ([], [0, 2])] : List (List Char × List Nat)).map
       fun p => p.2).getLastD [] ≠ []) ∧
    (∃ r : ShellCommandResult,
      (run (wfStream [(['h', 'i'], [3]), ([], [0, 2])] ['!']) true = .ok r ∨
        run (wfStream [(['h', 'i'], [3]), ([], [0, 2])] ['!']) true =
          .error (.shellCommandError (nonZeroStatusMessage r.pipestatus) r)) ∧
      r.pipestatus =
        ((([(['h', 'i'], [3]), ([], [0, 2])] : List (List Char × List Nat)).map
          fun p => p.2).getLastD []).map Int.ofNat ∧
      ((∀ v ∈ r.pipestatus, v = 0) → r.pipestatus.getLast? = some r.status) ∧
      ((∃ v ∈ r.pipestatus, v ≠ 0) →
        ∃ l1 l2, r.pipestatus = l1 ++ r.status :: l2 ∧ r.status ≠ 0 ∧
          ∀ x ∈ l2, x = 0)) :=
  ⟨⟨by decide, by decide, by decide, by decide⟩,
    c1_last_payload_aggregation [(['h', 'i'], [3]), ([], [0, 2])] ['!'] true
      (by decide) (by decide) (by decide) (by decide)⟩

/-- C4 counterexample: the loop of `_run_commands` is not the claimed
two-state machine on arbitrary streams.  On the stream `OPEN, 'x', CLOSE` the
claimed machine completes, flushing `"x"` as a payload with empty visible
output, while the code raises an `IndexError` (`split(" : ")[1]` on the buffer
`"⽌x⾏"`, which contains no `" : "`), because the code appends the markers to
its status buffer and fuses payload parsing into the flush. -/
theorem c4_counterexample :
    run_commands [markerOpen, 'x', markerClose] = .error .indexError ∧
    demuxSpec [markerOpen, 'x', markerClose] = ([], [['x']]) := by
  constructor
  · simp [run_commands, demuxLoop, demuxStep, pySplitSep, consHead, markerOpen,
      markerClose]
  · rfl

/-- C4 amended: on streams whose markers occur only as complete status-reporter
payload blocks, the loop of `_run_commands` behaves observationally as the
claimed two-state machine fused with payload parsing: its visible output
equals the machine's visible output, the machine's completed payloads are
exactly the blocks' inner texts, and the loop retains the parsed integer
sequence of the last payload. -/
theorem c4_demux_refines_spec_machine (segs : List (List Char × List Nat))
    (final : List Char) (hm : ∀ p ∈ segs, markerFree p.1) (hf : markerFree final) :
    run_commands (wfStream segs final) =
      .ok ((demuxSpec (wfStream segs final)).1,
        (segs.map fun p => p.2.map Int.ofNat).getLastD []) ∧
    (demuxSpec (wfStream segs final)).2 = segs.map fun p => payloadInner p.2 := by
  have h1 := run_commands_wf segs final hm hf
  have h2 := demuxSpec_wf segs final hm hf
  rw [h2]
  exact ⟨h1, rfl⟩

theorem c4_demux_refines_spec_machine_witness :
    ((∀ p ∈ ([(['y'], [4])] : List (List Char × List Nat)), markerFree p.1) ∧
     markerFree ['z']) ∧
    (run_commands (wfStream [(['y'], [4])] ['z']) =
      .ok ((demuxSpec (wfStream [(['y'], [4])] ['z'])).1,
        (([(['y'], [4])] : List (List Char × List Nat)).map
          fun p => p.2.map Int.ofNat).getLastD []) ∧
    (demuxSpec (wfStream [(['y'], [4])] ['z'])).2 =
      ([(['y'], [4])] : List (List Char × List Nat)).map fun p => payloadInner p.2) :=
  ⟨⟨by decide, by decide⟩,
    c4_demux_refines_spec_machine [(['y'], [4])] ['z'] (by decide) (by decide)⟩

end ShellRunner
